import Mathlib

set_option maxRecDepth 8000

/-!
Shallow embedding of the local document database handler (`db.ts` of the
reshuffle repository): versioned JSON documents stored in a key-value store,
bounded JSON-patch history, compare-and-set mutations, long-poll change
subscription, and a structural query evaluator.

Modelling conventions:
* JavaScript numbers that the handler manipulates (timestamps, version
  counters) are modelled as `Int`.
* `undefined` is modelled as `none` of an `Option`; JSON values are the
  inductive `Val` below.  A JS call site that may receive `undefined` takes an
  `Option Val`.
* The `hrnano()` clock is passed in explicitly as a `now : Int` parameter.
* Asynchronous waiting in `poll` is modelled by passing the list of live
  patch events that arrive within the poll's waiting window.
-/

/-- A JSON value as produced by `JSON.parse`: the `Serializable` values the
handler stores.  `undefined` is not a JSON value; call sites that admit it use
`Option Val`. -/
inductive Val where
  | vNull : Val
  | vBool (b : Bool) : Val
  | vNum (n : Int) : Val
  | vStr (s : String) : Val
  | vArr (elems : List Val) : Val
  | vObj (fields : List (String × Val)) : Val

mutual

/-- Decidable structural equality for JSON values (JS deep structural
equality, the notion used by `fast-json-patch`'s diff). -/
def Val.decEq : (a b : Val) → Decidable (a = b)
  | .vNull, .vNull => .isTrue rfl
  | .vBool a, .vBool b =>
    if h : a = b then .isTrue (by rw [h]) else .isFalse (fun hh => by cases hh; exact h rfl)
  | .vNum a, .vNum b =>
    if h : a = b then .isTrue (by rw [h]) else .isFalse (fun hh => by cases hh; exact h rfl)
  | .vStr a, .vStr b =>
    if h : a = b then .isTrue (by rw [h]) else .isFalse (fun hh => by cases hh; exact h rfl)
  | .vArr xs, .vArr ys =>
    match Val.decEqList xs ys with
    | .isTrue h => .isTrue (by rw [h])
    | .isFalse h => .isFalse (fun hh => by cases hh; exact h rfl)
  | .vObj xs, .vObj ys =>
    match Val.decEqFields xs ys with
    | .isTrue h => .isTrue (by rw [h])
    | .isFalse h => .isFalse (fun hh => by cases hh; exact h rfl)
  | .vNull, .vBool _ => .isFalse nofun
  | .vNull, .vNum _ => .isFalse nofun
  | .vNull, .vStr _ => .isFalse nofun
  | .vNull, .vArr _ => .isFalse nofun
  | .vNull, .vObj _ => .isFalse nofun
  | .vBool _, .vNull => .isFalse nofun
  | .vBool _, .vNum _ => .isFalse nofun
  | .vBool _, .vStr _ => .isFalse nofun
  | .vBool _, .vArr _ => .isFalse nofun
  | .vBool _, .vObj _ => .isFalse nofun
  | .vNum _, .vNull => .isFalse nofun
  | .vNum _, .vBool _ => .isFalse nofun
  | .vNum _, .vStr _ => .isFalse nofun
  | .vNum _, .vArr _ => .isFalse nofun
  | .vNum _, .vObj _ => .isFalse nofun
  | .vStr _, .vNull => .isFalse nofun
  | .vStr _, .vBool _ => .isFalse nofun
  | .vStr _, .vNum _ => .isFalse nofun
  | .vStr _, .vArr _ => .isFalse nofun
  | .vStr _, .vObj _ => .isFalse nofun
  | .vArr _, .vNull => .isFalse nofun
  | .vArr _, .vBool _ => .isFalse nofun
  | .vArr _, .vNum _ => .isFalse nofun
  | .vArr _, .vStr _ => .isFalse nofun
  | .vArr _, .vObj _ => .isFalse nofun
  | .vObj _, .vNull => .isFalse nofun
  | .vObj _, .vBool _ => .isFalse nofun
  | .vObj _, .vNum _ => .isFalse nofun
  | .vObj _, .vStr _ => .isFalse nofun
  | .vObj _, .vArr _ => .isFalse nofun

/-- Decidable equality for lists of JSON values. -/
def Val.decEqList : (xs ys : List Val) → Decidable (xs = ys)
  | [], [] => .isTrue rfl
  | [], _ :: _ => .isFalse nofun
  | _ :: _, [] => .isFalse nofun
  | x :: xs, y :: ys =>
    match Val.decEq x y with
    | .isFalse h => .isFalse (fun hh => by cases hh; exact h rfl)
    | .isTrue h1 =>
      match Val.decEqList xs ys with
      | .isTrue h2 => .isTrue (by rw [h1, h2])
      | .isFalse h2 => .isFalse (fun hh => by cases hh; exact h2 rfl)

/-- Decidable equality for JSON object field lists. -/
def Val.decEqFields : (xs ys : List (String × Val)) → Decidable (xs = ys)
  | [], [] => .isTrue rfl
  | [], _ :: _ => .isFalse nofun
  | _ :: _, [] => .isFalse nofun
  | (k1, v1) :: xs, (k2, v2) :: ys =>
    if hk : k1 = k2 then
      match Val.decEq v1 v2 with
      | .isFalse h => .isFalse (fun hh => by cases hh; exact h rfl)
      | .isTrue h1 =>
        match Val.decEqFields xs ys with
        | .isTrue h2 => .isTrue (by rw [hk, h1, h2])
        | .isFalse h2 => .isFalse (fun hh => by cases hh; exact h2 rfl)
    else .isFalse (fun hh => by cases hh; exact hk rfl)

end

instance : DecidableEq Val := Val.decEq

/-- JS `typeof` on a defined `Val`.  Note `typeof null` is `"object"` in
JavaScript. -/
def typeofVal : Val → String
  | .vNull => "object"
  | .vBool _ => "boolean"
  | .vNum _ => "number"
  | .vStr _ => "string"
  | .vArr _ => "object"
  | .vObj _ => "object"

/-- JS `typeof` on a possibly-`undefined` value. -/
def typeofJS : Option Val → String
  | none => "undefined"
  | some v => typeofVal v

/-- `interface Version { major, minor }` from the interfaces package. -/
structure Version where
  major : Int
  minor : Int
deriving DecidableEq

/-- `incrVersion({major, minor}, amount)` (db.ts line 193). -/
def incrVersion (v : Version) (amount : Int) : Version :=
  ⟨v.major, v.minor + amount⟩

/-- `decrVersion(version, amount)` (db.ts line 197). -/
def decrVersion (v : Version) (amount : Int) : Version :=
  incrVersion v (-amount)

/-- `isGreaterVersion(a, b)` (db.ts line 201). -/
def isGreaterVersion (a b : Version) : Bool :=
  a.major > b.major || (a.major == b.major && a.minor > b.minor)

/-- A JSON-patch operation.  Modelled from the spec: the repository delegates
to the external `fast-json-patch` `compare`, which is out of scope and
specified only through its interface (ops rooted under a synthetic `root`
field so transitions to and from absence are representable). -/
inductive PatchOp where
  | rootChange (prev next : Option Val) : PatchOp
deriving DecidableEq

/-- Modelled from the spec: `compare({root: prev}, {root: next})` of
`fast-json-patch` — "Returns an empty sequence iff values are structurally
equal", with absence (`undefined`) expressible on either side. -/
def jsonPatchCompare (prev next : Option Val) : List PatchOp :=
  if prev = next then [] else [PatchOp.rootChange prev next]

/-- A stored patch `{version, ops, ...options}` (db.ts line 274); the spread
update options are modelled as an optional opaque metadata value. -/
structure Patch where
  version : Version
  ops : List PatchOp
  meta : Option Val
deriving DecidableEq

/-- The persisted envelope `{version, value, patches, updatedAt}`
(db.ts lines 275-280).  `value = none` is the serialized form with the `value`
key omitted: a tombstone.  `StoredDocument` is an envelope with `value` present
and `Tombstone` one without. -/
structure Envelope where
  version : Version
  value : Option Val
  patches : List Patch
  updatedAt : Int
deriving DecidableEq

/-- The key-value store contents: what `getWithMeta` would parse for each key.
`none` is the engine's not-found signal. -/
def DB := String → Option Envelope

/-- Writing one envelope through `db.put` (envelopes are written whole). -/
def dbSet (db : DB) (key : String) (e : Envelope) : DB :=
  fun k => if k = key then some e else db k

/-- The empty store. -/
def emptyDB : DB := fun _ => none

def NUM_PATCHES_TO_KEEP : Nat := 20

def DEFAULT_READ_BLOCK_TIME_MS : Nat := 50000

/-- `allowedTypes` (db.ts line 208): the `typeof` strings accepted at top
level (bigint deliberately not allowed). -/
def allowedTypes : List String := ["object", "boolean", "number", "string"]

/-- `checkValue(value)` (db.ts lines 210-214): throws `TypeError` when the
top-level `typeof` is not allowed.  Errors are modelled as `Except.error` with
the message text. -/
def checkValue (value : Option Val) : Except String Unit :=
  if allowedTypes.contains (typeofJS value) then Except.ok ()
  else Except.error ("Non-JSONable value of type " ++ typeofJS value ++ " at top level")

/-- `isLiveValue(maybe)` (db.ts lines 216-218): a present envelope whose
`value` is defined. -/
def isLiveValue (maybe : Option Envelope) : Bool :=
  match maybe with
  | none => false
  | some e => e.value != none

/-- `versionsMatch(prev, version)` (db.ts lines 220-225). -/
def versionsMatch (prev : Option Envelope) (version : Version) : Bool :=
  match prev with
  | none => version.major == 0 && version.minor == 0
  | some p => p.version.major == version.major && p.version.minor == version.minor

/-- `valueOrUndefined(maybeHasValue)` (db.ts lines 227-229). -/
def valueOrUndefined (maybe : Option Envelope) : Option Val :=
  match maybe with
  | none => none
  | some e => e.value

/-- JS `Array.prototype.slice(-n)` for positive `n`: the suffix of the most
recent `n` elements. -/
def sliceLast (n : Nat) (l : List α) : List α :=
  l.drop (l.length - n)

/-- The result of one public mutation: the returned boolean, the store after
the call, and the `patch` event emitted on the `'patch'` channel (if any). -/
structure OpResult where
  ret : Bool
  db : DB
  event : Option (String × Patch)

/-- `Handler.put(key, prev, value, options)` (db.ts lines 265-284): compute
the JSON-patch against the previous value; when non-empty, write the new
envelope (fresh `(hrnano(), 1)` version for an absent or tombstone `prev`,
else the incremented previous version; history truncated with
`slice(-NUM_PATCHES_TO_KEEP)` before appending) and emit the patch event.
`now` stands for `hrnano()`. -/
def Handler.put (db : DB) (now : Int) (key : String) (prev : Option Envelope)
    (value : Option Val) (opts : Option Val) : DB × Option (String × Patch) :=
  let prevValue := valueOrUndefined prev
  let version : Version :=
    match prev with
    | none => ⟨now, 1⟩
    | some p => if p.value = none then ⟨now, 1⟩ else incrVersion p.version 1
  let patches : List Patch :=
    match prev with
    | none => []
    | some p => p.patches
  let ops := jsonPatchCompare prevValue value
  if ops.length > 0 then
    let patch : Patch := ⟨version, ops, opts⟩
    (dbSet db key ⟨version, value, sliceLast NUM_PATCHES_TO_KEEP patches ++ [patch], now⟩,
     some (key, patch))
  else
    (db, none)

/-- `Handler.getWithMeta(ctx, key)` (db.ts lines 302-312): parse the stored
envelope, or `undefined` on the engine's not-found signal.  Storage and parse
failures are external collaborators, outside the embedding. -/
def Handler.getWithMeta (db : DB) (key : String) : Option Envelope :=
  db key

/-- The `{version, value?}` shape returned by `getWithVersion` (the
`pick(['value', 'version'], withMeta)` result; `pick` omits an absent
`value`). -/
structure VersionedMaybeObject where
  version : Version
  value : Option Val
deriving DecidableEq

/-- `Handler.getWithVersion(ctx, key)` (db.ts lines 318-324). -/
def Handler.getWithVersion (db : DB) (key : String) : VersionedMaybeObject :=
  match Handler.getWithMeta db key with
  | none => ⟨⟨0, 0⟩, none⟩
  | some e => ⟨e.version, e.value⟩

/-- `Handler.get(ctx, key)` (db.ts lines 290-296). -/
def Handler.get (db : DB) (key : String) : Option Val :=
  match Handler.getWithMeta db key with
  | none => none
  | some e => e.value

/-- `Handler.create(ctx, key, value)` (db.ts lines 335-345): check the value,
then under the write lock read the current envelope; a live document means
`false`, otherwise `put` and `true`. -/
def Handler.create (db : DB) (now : Int) (key : String) (value : Option Val) :
    Except String OpResult :=
  match checkValue value with
  | Except.error e => Except.error e
  | Except.ok _ =>
    let prev := Handler.getWithMeta db key
    if isLiveValue prev then
      Except.ok ⟨false, db, none⟩
    else
      let r := Handler.put db now key prev value none
      Except.ok ⟨true, r.1, r.2⟩

/-- `Handler.remove(ctx, key)` (db.ts lines 351-361). -/
def Handler.remove (db : DB) (now : Int) (key : String) : OpResult :=
  let prev := Handler.getWithMeta db key
  if valueOrUndefined prev = none then
    ⟨false, db, none⟩
  else
    let r := Handler.put db now key prev none none
    ⟨true, r.1, r.2⟩

/-- `Handler.setIfVersion(ctx, key, version, value?, options?)` (db.ts lines
363-373).  Note the value check is skipped when `value === undefined` (the
CAS-remove form). -/
def Handler.setIfVersion (db : DB) (now : Int) (key : String) (version : Version)
    (value : Option Val) (opts : Option Val) : Except String OpResult :=
  match (if value ≠ none then checkValue value else Except.ok ()) with
  | Except.error e => Except.error e
  | Except.ok _ =>
    let prev := Handler.getWithMeta db key
    if !versionsMatch prev version then
      Except.ok ⟨false, db, none⟩
    else
      let r := Handler.put db now key prev value opts
      Except.ok ⟨true, r.1, r.2⟩

/-- Returned boolean of a mutation, `none` when it threw. -/
def opRet (x : Except String OpResult) : Option Bool :=
  match x with
  | Except.ok r => some r.ret
  | Except.error _ => none

/-- Did the mutation throw? -/
def opIsError (x : Except String OpResult) : Bool :=
  match x with
  | Except.ok _ => false
  | Except.error _ => true

/-- The envelope stored at `key` after a mutation (`none` when it threw or the
key is absent). -/
def opDbAt (x : Except String OpResult) (key : String) : Option Envelope :=
  match x with
  | Except.ok r => r.db key
  | Except.error _ => none

/-- The patch event emitted by a mutation. -/
def opEvent (x : Except String OpResult) : Option (String × Patch) :=
  match x with
  | Except.ok r => r.event
  | Except.error _ => none

/-! ## Query evaluator (db.ts lines 431-515) -/

/-- One step of a ramda `path`: a property name or an array index.  JS
coerces: a numeric segment on an object reads the stringified property, a
string segment that is a canonical number indexes an array. -/
inductive Seg where
  | fld (s : String) : Seg
  | idx (n : Nat) : Seg
deriving DecidableEq

/-- Lookup of a field in a JSON object (first binding wins: `JSON.parse`
keeps one binding per key). -/
def objGet (fields : List (String × Val)) (k : String) : Option Val :=
  match fields with
  | [] => none
  | (k2, v) :: rest => if k2 = k then some v else objGet rest k

/-- The canonical decimal digits of a `Nat` used when JS coerces an index to
a property name. -/
def natKey (n : Nat) : String := toString n

/-- A string made only of digits parsed as a `Nat` (used for `arr["2"]`);
`none` otherwise. -/
def digitsToNat (s : String) : Option Nat :=
  if s.length > 0 && s.all Char.isDigit then
    some (s.foldl (fun acc c => acc * 10 + (c.toNat - 48)) 0)
  else none

/-- One step of property access `v[seg]` as ramda `path` performs it.
Property access on primitives (for example string character indexing) is not
modelled and yields `none`. -/
def segGet (v : Val) (seg : Seg) : Option Val :=
  match v, seg with
  | .vObj fields, .fld s => objGet fields s
  | .vObj fields, .idx n => objGet fields (natKey n)
  | .vArr xs, .idx n => xs.get? n
  | .vArr xs, .fld s =>
    match digitsToNat s with
    | some n => xs.get? n
    | none => none
  | _, _ => none

/-- ramda `path(p, v)`: walk `p` through `v`, `undefined` when any step is
missing. -/
def getPath (p : List Seg) (v : Val) : Option Val :=
  match p with
  | [] => some v
  | seg :: rest =>
    match segGet v seg with
    | none => none
    | some v2 => getPath rest v2

/-- A `find` result entry `{key, value}` (db.ts line 447); tombstones are
skipped before this is built, so `value` is always defined. -/
structure Document where
  key : String
  value : Val
deriving DecidableEq

/-- The document as the JS object `{key, value}` that filter paths and
ordering paths are resolved against. -/
def docVal (d : Document) : Val :=
  .vObj [("key", .vStr d.key), ("value", d.value)]

mutual

/-- JS `String(v)`: the string conversion used when an object or array is
compared relationally (`Object.prototype.toString` gives
`"[object Object]"`, `Array.prototype.toString` joins element strings with
commas, rendering `null` as the empty string). -/
def valToString : Val → String
  | .vNull => "null"
  | .vBool true => "true"
  | .vBool false => "false"
  | .vNum n => toString n
  | .vStr s => s
  | .vArr xs => String.intercalate "," (arrParts xs)
  | .vObj _ => "[object Object]"

/-- Element strings of `Array.prototype.join`. -/
def arrParts : List Val → List String
  | [] => []
  | .vNull :: rest => "" :: arrParts rest
  | v :: rest => valToString v :: arrParts rest

end

/-- A JS primitive after `ToPrimitive` with hint number: what the abstract
relational comparison actually compares. -/
inductive Prim where
  | pUndef : Prim
  | pNull : Prim
  | pBool (b : Bool) : Prim
  | pNum (n : Int) : Prim
  | pStr (s : String) : Prim
deriving DecidableEq

/-- `ToPrimitive` on a possibly-`undefined` value: objects and arrays become
their string rendering, everything else is already primitive. -/
def toPrimitive (x : Option Val) : Prim :=
  match x with
  | none => .pUndef
  | some .vNull => .pNull
  | some (.vBool b) => .pBool b
  | some (.vNum n) => .pNum n
  | some (.vStr s) => .pStr s
  | some (v@(.vArr _)) => .pStr (valToString v)
  | some (v@(.vObj _)) => .pStr (valToString v)

/-- JS `ToNumber` on a primitive; `none` is `NaN`.  JS numbers are modelled
as integers, so only integer literals (with optional sign, after trimming)
parse; other strings are `NaN`. -/
def toNumber (p : Prim) : Option Int :=
  match p with
  | .pUndef => none
  | .pNull => some 0
  | .pBool b => some (if b then 1 else 0)
  | .pNum n => some n
  | .pStr s =>
    let t := s.trim
    if t = "" then some 0
    else if t.startsWith "-" then (digitsToNat (t.drop 1)).map (fun n => -(n : Int))
    else if t.startsWith "+" then (digitsToNat (t.drop 1)).map (fun n => (n : Int))
    else (digitsToNat t).map (fun n => (n : Int))

/-- The JS abstract relational comparison `x < y`: compare as strings when
both primitives are strings, else numerically, with any `NaN` making the
comparison false. -/
def jsLt (x y : Option Val) : Bool :=
  match toPrimitive x, toPrimitive y with
  | .pStr a, .pStr b => decide (a < b)
  | px, py =>
    match toNumber px, toNumber py with
    | some a, some b => decide (a < b)
    | _, _ => false

/-- `x < y` or `x > y` on JS values is undefined (NaN-valued), which makes
`<=` and `>=` false as well. -/
def jsCmpUndef (x y : Option Val) : Bool :=
  match toPrimitive x, toPrimitive y with
  | .pStr _, .pStr _ => false
  | px, py => (toNumber px).isNone || (toNumber py).isNone

/-- JS `x <= y`: the negated reversed comparison, false when undefined. -/
def jsLe (x y : Option Val) : Bool :=
  !jsCmpUndef y x && !jsLt y x

/-- JS `x >= y`. -/
def jsGe (x y : Option Val) : Bool :=
  !jsCmpUndef x y && !jsLt x y

/-- JS strict equality `===` between the leaf value freshly extracted from a
parsed document and the independently supplied filter operand.  On
primitives `===` is value equality; on objects and arrays it is reference
equality, and the two sides never alias (the document was just parsed from
the store, the operand came in with the query), so composite operands compare
unequal. -/
def jsStrictEq (a b : Val) : Bool :=
  match a, b with
  | .vNull, .vNull => true
  | .vBool x, .vBool y => x == y
  | .vNum x, .vNum y => x == y
  | .vStr x, .vStr y => x == y
  | _, _ => false

/-- `===` when the left side may be `undefined` (a missing path) and the
operand is defined. -/
def jsStrictEqOpt (a : Option Val) (b : Val) : Bool :=
  match a with
  | none => false
  | some v => jsStrictEq v b

/-- Which `Val` constructors are JS primitives (where `===` agrees with
structural equality). -/
def isPrimitive : Val → Bool
  | .vNull => true
  | .vBool _ => true
  | .vNum _ => true
  | .vStr _ => true
  | .vArr _ => false
  | .vObj _ => false

/-- The filter AST (named `Filter` in the interfaces package; renamed here
because Lean already uses that name) as consumed by `match` (db.ts lines
471-515).  The `matches` regex operator delegates to the JS `RegExp` engine
and is not modelled; every other operator is.  The `exists` operator is
spelled `existsF` because `exists` is a Lean keyword. -/
inductive DocFilter where
  | and (filters : List DocFilter) : DocFilter
  | or (filters : List DocFilter) : DocFilter
  | not (filter : DocFilter) : DocFilter
  | eq (path : List Seg) (value : Val) : DocFilter
  | ne (path : List Seg) (value : Val) : DocFilter
  | gt (path : List Seg) (value : Val) : DocFilter
  | gte (path : List Seg) (value : Val) : DocFilter
  | lt (path : List Seg) (value : Val) : DocFilter
  | lte (path : List Seg) (value : Val) : DocFilter
  | existsF (path : List Seg) : DocFilter
  | isNull (path : List Seg) : DocFilter
  | startsWith (path : List Seg) (value : String) : DocFilter

mutual

/-- `match(doc, filter)` (db.ts lines 471-515).  The AST is closed, so the
`undefined`-operator path of `wrappedMatch` cannot arise. -/
def matchF (doc : Document) : DocFilter → Bool
  | .and fs => matchAll doc fs
  | .or fs => matchAny doc fs
  | .not f => !matchF doc f
  | .eq p v => jsStrictEqOpt (getPath p (docVal doc)) v
  | .ne p v => !jsStrictEqOpt (getPath p (docVal doc)) v
  | .gt p v => typeofJS (getPath p (docVal doc)) == typeofVal v
      && jsLt (some v) (getPath p (docVal doc))
  | .gte p v => typeofJS (getPath p (docVal doc)) == typeofVal v
      && jsGe (getPath p (docVal doc)) (some v)
  | .lt p v => typeofJS (getPath p (docVal doc)) == typeofVal v
      && jsLt (getPath p (docVal doc)) (some v)
  | .lte p v => typeofJS (getPath p (docVal doc)) == typeofVal v
      && jsLe (getPath p (docVal doc)) (some v)
  | .existsF p => (getPath p (docVal doc)).isSome
  | .isNull p => getPath p (docVal doc) == some .vNull
  | .startsWith p v =>
    match getPath p (docVal doc) with
    | some (.vStr s) => s.startsWith v
    | _ => false

/-- `filters.every((f) => wrappedMatch(doc, f))`. -/
def matchAll (doc : Document) : List DocFilter → Bool
  | [] => true
  | f :: fs => matchF doc f && matchAll doc fs

/-- `filters.some((f) => wrappedMatch(doc, f))`. -/
def matchAny (doc : Document) : List DocFilter → Bool
  | [] => false
  | f :: fs => matchF doc f || matchAny doc fs

end

/-- `Order` of the interfaces package: `{path, direction}`. -/
inductive Direction where
  | ASC : Direction
  | DESC : Direction
deriving DecidableEq

structure Order where
  path : List Seg
  direction : Direction
deriving DecidableEq

/-- ramda `ascend(fn)`: `-1` when `fn(a) < fn(b)`, `1` when `fn(a) > fn(b)`,
else `0` (and `a > b` in JS is the reversed abstract comparison `b < a`). -/
def ascendCmp {α : Type} (f : α → Option Val) (a b : α) : Ordering :=
  if jsLt (f a) (f b) then .lt else if jsLt (f b) (f a) then .gt else .eq

/-- ramda `descend(fn)`. -/
def descendCmp {α : Type} (f : α → Option Val) (a b : α) : Ordering :=
  if jsLt (f b) (f a) then .lt else if jsLt (f a) (f b) then .gt else .eq

/-- `buildComparator({path, direction})` (db.ts lines 459-461). -/
def buildComparator (o : Order) : Document → Document → Ordering :=
  match o.direction with
  | .ASC => ascendCmp (fun d => getPath o.path (docVal d))
  | .DESC => descendCmp (fun d => getPath o.path (docVal d))

/-- ramda `sortWith`'s combined comparator: try each comparator in turn until
one is decisive (earlier orderings dominate later ones). -/
def combineCmps {α : Type} (cs : List (α → α → Ordering)) (a b : α) : Ordering :=
  match cs with
  | [] => .eq
  | c :: rest =>
    match c a b with
    | .eq => combineCmps rest a b
    | o => o

/-- Stable insertion step: the new element goes after every element it does
not strictly precede. -/
def insertCmp {α : Type} (cmp : α → α → Ordering) (x : α) : List α → List α
  | [] => [x]
  | y :: ys => if cmp x y = .lt then x :: y :: ys else y :: insertCmp cmp x ys

/-- ramda `sortWith(comparators, list)`: a stable comparator sort (JS
`Array.prototype.sort` is specified stable), modelled as left-to-right stable
insertion. -/
def sortWithCmp {α : Type} (cmp : α → α → Ordering) (l : List α) : List α :=
  l.foldl (fun acc x => insertCmp cmp x acc) []

/-- The sorting stage of `find` (db.ts line 454):
`sortWith(orderBy.map(buildComparator), results)`. -/
def findSort (orderBy : List Order) (results : List Document) : List Document :=
  sortWithCmp (combineCmps (orderBy.map buildComparator)) results

/-! ## Poll engine (db.ts lines 380-424) -/

/-- `new Map(keysToVersions).get(key)`: the subscribed floor version for a
key (a JS `Map` built from pairs keeps the last binding of a duplicated
key). -/
def mapGet (kvs : List (String × Version)) (key : String) : Option Version :=
  match kvs with
  | [] => none
  | (k, v) :: rest =>
    match mapGet rest key with
    | some v2 => some v2
    | none => if k = key then some v else none

/-- The body of `patchHandler` (db.ts lines 388-393): a live `(key, patch)`
event resolves the poll iff the key is subscribed and the patch version is
strictly greater than the subscribed version. -/
def qualifies (kvs : List (String × Version)) (key : String) (p : Patch) : Bool :=
  match mapGet kvs key with
  | none => false
  | some since => isGreaterVersion p.version since

/-- One entry of poll's initial scan (db.ts lines 397-407): the stored
patches strictly newer than the subscribed version, or `undefined` when the
key is absent or none qualify. -/
def pollScanOne (db : DB) (kv : String × Version) : Option (String × List Patch) :=
  match Handler.getWithMeta db kv.1 with
  | none => none
  | some doc =>
    let patches := doc.patches.filter (fun p => isGreaterVersion p.version kv.2)
    if patches.length = 0 then none else some (kv.1, patches)

/-- The initial scan with the `undefined` entries filtered out (db.ts lines
397-409). -/
def pollScan (db : DB) (kvs : List (String × Version)) : List (String × List Patch) :=
  (kvs.map (pollScanOne db)).filterMap id

/-- How the blocking wait of `poll` ends: the deferred promise resolved by
`patchHandler`, or `withTimeout` rejected (with `TimeoutError` or some other
error). -/
inductive WaitResult where
  | resolved (entry : String × List Patch) : WaitResult
  | rejected (errName : String) : WaitResult

/-- The return/catch logic of `poll` (db.ts lines 410-420): a non-empty scan
returns immediately; otherwise the wait's outcome is returned, a
`TimeoutError` rejection is converted to the empty list, and any other
rejection propagates. -/
def pollFinish (scan : List (String × List Patch)) (w : WaitResult) :
    Except String (List (String × List Patch)) :=
  if scan.length > 0 then Except.ok scan
  else
    match w with
    | .resolved entry => Except.ok [entry]
    | .rejected name => if name = "TimeoutError" then Except.ok [] else Except.error name

/-- The first live event within the waiting window that `patchHandler` would
resolve on. -/
def firstQualifying (kvs : List (String × Version)) (events : List (String × Patch)) :
    Option (String × Patch) :=
  match events with
  | [] => none
  | (k, p) :: rest => if qualifies kvs k p then some (k, p) else firstQualifying kvs rest

/-- `Handler.poll(ctx, keysToVersions, opts)` (db.ts lines 380-424), with the
asynchronous wait modelled by `events`, the live patch events published
during the waiting window: when these contain no qualifying event the
deferred promise never resolves and `withTimeout` rejects with
`TimeoutError`. -/
def Handler.poll (db : DB) (kvs : List (String × Version))
    (events : List (String × Patch)) : Except String (List (String × List Patch)) :=
  pollFinish (pollScan db kvs)
    (match firstQualifying kvs events with
     | some (k, p) => WaitResult.resolved (k, [p])
     | none => WaitResult.rejected "TimeoutError")

/-! ## Concrete fixtures used by witnesses and counterexamples -/

/-- A live envelope at version `(7, 2)` holding the number `1`. -/
def envLive : Envelope := ⟨⟨7, 2⟩, some (.vNum 1), [], 3⟩

def dbLive : DB := dbSet emptyDB "k" envLive

/-- A tombstone that preserved version `(5, 3)`. -/
def envTomb : Envelope := ⟨⟨5, 3⟩, none, [], 2⟩

def dbTomb : DB := dbSet emptyDB "k" envTomb

def patchA : Patch := ⟨⟨1, 1⟩, [PatchOp.rootChange none (some (.vNum 0))], none⟩

/-- A live envelope whose history already holds `NUM_PATCHES_TO_KEEP`
patches. -/
def envFull : Envelope := ⟨⟨1, 20⟩, some (.vNum 1), List.replicate 20 patchA, 0⟩

def dbFull : DB := dbSet emptyDB "k" envFull

def docC7 : Document := ⟨"k", .vObj [("a", .vObj [("x", .vNum 1)])]⟩

def pathC7 : List Seg := [.fld "value", .fld "a"]

def operandC7 : Val := .vObj [("x", .vNum 1)]

/-- A document whose value carries an `age` field. -/
def docAge (k : String) (n : Int) : Document := ⟨k, .vObj [("age", .vNum n)]⟩

/-- A document with no `age` field. -/
def docNoAge : Document := ⟨"u", .vObj []⟩

def ordAgeAsc : Order := ⟨[.fld "value", .fld "age"], .ASC⟩

/-- An envelope whose only stored patch is exactly at the subscribed
version, so the poll scan finds nothing newer. -/
def envPolled : Envelope := ⟨⟨1, 1⟩, some (.vNum 1), [patchA], 0⟩

def dbPolled : DB := dbSet emptyDB "a" envPolled

/-! ## Helper lemmas -/

/-- Every JSON value passes `checkValue`: all `Val` constructors have an
allowed `typeof` (in particular `typeof null` is `"object"`). -/
theorem checkValue_some (v : Val) : checkValue (some v) = Except.ok () := by
  cases v <;> rfl

theorem dbSet_self (db : DB) (key : String) (e : Envelope) :
    dbSet db key e key = some e := by
  simp [dbSet]

/-- The spec-modelled diff interface: empty iff structurally equal. -/
theorem jsonPatchCompare_eq_nil (prev next : Option Val) :
    jsonPatchCompare prev next = [] ↔ prev = next := by
  by_cases h : prev = next <;> simp [jsonPatchCompare, h]

/-! ## Claim theorems -/

/-- C4: for every key and every `expectedVersion` that does not match the
current envelope's version (an absent envelope matches exactly `(0, 0)`),
`setIfVersion` returns `false` without raising an error and leaves the
stored state (and the event channel) unchanged. -/
theorem setIfVersion_mismatch_returns_false (db : DB) (now : Int) (key : String)
    (expected : Version) (value : Option Val) (opts : Option Val)
    (h : versionsMatch (Handler.getWithMeta db key) expected = false) :
    Handler.setIfVersion db now key expected value opts = Except.ok ⟨false, db, none⟩ := by
  cases value with
  | none => simp [Handler.setIfVersion, h]
  | some v => simp [Handler.setIfVersion, checkValue_some, h]

/-- C4 witness: a CAS against an absent key with a non-sentinel expected
version fails cleanly. -/
theorem setIfVersion_mismatch_returns_false_witness :
    Handler.setIfVersion emptyDB 9 "k" ⟨1, 0⟩ (some (.vNum 3)) none =
      Except.ok ⟨false, emptyDB, none⟩ :=
  setIfVersion_mismatch_returns_false emptyDB 9 "k" ⟨1, 0⟩ (some (.vNum 3)) none (by decide)

/-- C3: for every key and pair of structurally equal values `a = b`, a
`setIfVersion(key, currentVersion, b)` against prior value `a` performs no
write: the JSON-patch is empty, so the stored envelope is unchanged and no
patch event is emitted (the call still returns `true`). -/
theorem setIfVersion_equal_value_no_write (db : DB) (now : Int) (key : String)
    (opts : Option Val) (e : Envelope) (a b : Val)
    (hdb : Handler.getWithMeta db key = some e) (hval : e.value = some a)
    (hab : a = b) :
    Handler.setIfVersion db now key e.version (some b) opts =
      Except.ok ⟨true, db, none⟩ := by
  subst hab
  simp [Handler.setIfVersion, checkValue_some, hdb, versionsMatch, Handler.put,
    valueOrUndefined, hval, jsonPatchCompare]

/-- C3 witness: rewriting the stored number `1` with an equal `1` leaves the
envelope and the event channel untouched. -/
theorem setIfVersion_equal_value_no_write_witness :
    Handler.setIfVersion dbLive 11 "k" ⟨7, 2⟩ (some (.vNum 1)) none =
      Except.ok ⟨true, dbLive, none⟩ :=
  setIfVersion_equal_value_no_write dbLive 11 "k" none envLive (.vNum 1) (.vNum 1)
    rfl rfl rfl


/-- C2 counterexample: the claim quantifies over every prior envelope whose
version matches `V`, including tombstones — but a successful `setIfVersion`
against a tombstone at version `(5, 3)` stores the fresh version
`(hrnano(), 1)` (here `(100, 1)`), not `(major = 5, minor = 4)`. -/
theorem setIfVersion_tombstone_fresh_version_counterexample :
    opRet (Handler.setIfVersion dbTomb 100 "k" ⟨5, 3⟩ (some (.vNum 1)) none) = some true
    ∧ (opDbAt (Handler.setIfVersion dbTomb 100 "k" ⟨5, 3⟩ (some (.vNum 1)) none) "k").map
        Envelope.version = some ⟨100, 1⟩
    ∧ ¬((opDbAt (Handler.setIfVersion dbTomb 100 "k" ⟨5, 3⟩ (some (.vNum 1)) none) "k").map
        Envelope.version = some ⟨5, 4⟩) := by
  decide

/-- C2 amended: for every successful `setIfVersion(k, V, v')` whose prior
envelope is a live document (not a tombstone) with a value structurally
different from `v'`, the newly stored version has `major = V.major` and
`minor = V.minor + 1`. -/
theorem setIfVersion_live_increments_version (db : DB) (now : Int) (key : String)
    (expected : Version) (v w : Val) (opts : Option Val) (e : Envelope)
    (hdb : Handler.getWithMeta db key = some e) (hlive : e.value = some w)
    (hne : v ≠ w)
    (hmatch : versionsMatch (Handler.getWithMeta db key) expected = true) :
    ∃ r, Handler.setIfVersion db now key expected (some v) opts = Except.ok r
      ∧ r.ret = true
      ∧ ∃ e2, r.db key = some e2
        ∧ e2.version = ⟨expected.major, expected.minor + 1⟩
        ∧ e2.value = some v := by
  rw [hdb] at hmatch
  have hver : e.version.major = expected.major ∧ e.version.minor = expected.minor := by
    simpa [versionsMatch] using hmatch
  have hops : jsonPatchCompare (some w) (some v) =
      [PatchOp.rootChange (some w) (some v)] := by
    rw [jsonPatchCompare, if_neg]
    intro h
    exact hne (Option.some.inj h).symm
  have hput : Handler.put db now key (some e) (some v) opts =
      (dbSet db key ⟨incrVersion e.version 1, some v,
         sliceLast NUM_PATCHES_TO_KEEP e.patches ++
           [⟨incrVersion e.version 1, [PatchOp.rootChange (some w) (some v)], opts⟩], now⟩,
       some (key, ⟨incrVersion e.version 1, [PatchOp.rootChange (some w) (some v)], opts⟩)) := by
    simp [Handler.put, valueOrUndefined, hlive, hops]
  have hsv : Handler.setIfVersion db now key expected (some v) opts =
      Except.ok ⟨true, (Handler.put db now key (some e) (some v) opts).1,
        (Handler.put db now key (some e) (some v) opts).2⟩ := by
    simp [Handler.setIfVersion, checkValue_some, hdb, hmatch]
  rw [hsv, hput]
  refine ⟨_, rfl, rfl, _, dbSet_self db key _, ?_, rfl⟩
  show incrVersion e.version 1 = _
  rw [incrVersion, hver.1, hver.2]

/-- C2 witness: updating the live `(7, 2)` document with a different value
stores version `(7, 3)`. -/
theorem setIfVersion_live_increments_version_witness :
    ∃ r, Handler.setIfVersion dbLive 50 "k" ⟨7, 2⟩ (some (.vNum 2)) none = Except.ok r
      ∧ r.ret = true
      ∧ ∃ e2, r.db "k" = some e2 ∧ e2.version = ⟨7, 3⟩ ∧ e2.value = some (.vNum 2) :=
  setIfVersion_live_increments_version dbLive 50 "k" ⟨7, 2⟩ (.vNum 2) (.vNum 1) none
    envLive rfl rfl (by decide) (by decide)

/-- C5: `create(key, value)` returns `false` and leaves state unchanged when
the key holds a live document, and returns `true` — committing the value
with minor version `1` and the fresh timestamp as major — when the key is
absent or holds a tombstone. -/
theorem create_live_false_else_commits (db : DB) (now : Int) (key : String) (v : Val) :
    (isLiveValue (Handler.getWithMeta db key) = true →
      Handler.create db now key (some v) = Except.ok ⟨false, db, none⟩)
    ∧ (isLiveValue (Handler.getWithMeta db key) = false →
      ∃ r, Handler.create db now key (some v) = Except.ok r ∧ r.ret = true
        ∧ ∃ e2, r.db key = some e2 ∧ e2.version = ⟨now, 1⟩ ∧ e2.value = some v) := by
  constructor
  · intro h
    simp [Handler.create, checkValue_some, h]
  · intro h
    have hops : jsonPatchCompare none (some v) = [PatchOp.rootChange none (some v)] := by
      rw [jsonPatchCompare, if_neg]
      exact fun hh => Option.noConfusion hh
    cases hp : Handler.getWithMeta db key with
    | none =>
      have hput : Handler.put db now key none (some v) none =
          (dbSet db key ⟨⟨now, 1⟩, some v,
             sliceLast NUM_PATCHES_TO_KEEP [] ++
               [⟨⟨now, 1⟩, [PatchOp.rootChange none (some v)], none⟩], now⟩,
           some (key, ⟨⟨now, 1⟩, [PatchOp.rootChange none (some v)], none⟩)) := by
        simp [Handler.put, valueOrUndefined, hops]
      have hc : Handler.create db now key (some v) =
          Except.ok ⟨true, (Handler.put db now key none (some v) none).1,
            (Handler.put db now key none (some v) none).2⟩ := by
        simp [Handler.create, checkValue_some, hp, isLiveValue]
      rw [hc, hput]
      exact ⟨_, rfl, rfl, _, dbSet_self db key _, rfl, rfl⟩
    | some e =>
      have htomb : e.value = none := by
        rw [hp] at h
        simpa [isLiveValue] using h
      have hput : Handler.put db now key (some e) (some v) none =
          (dbSet db key ⟨⟨now, 1⟩, some v,
             sliceLast NUM_PATCHES_TO_KEEP e.patches ++
               [⟨⟨now, 1⟩, [PatchOp.rootChange none (some v)], none⟩], now⟩,
           some (key, ⟨⟨now, 1⟩, [PatchOp.rootChange none (some v)], none⟩)) := by
        simp [Handler.put, valueOrUndefined, htomb, hops]
      have hc : Handler.create db now key (some v) =
          Except.ok ⟨true, (Handler.put db now key (some e) (some v) none).1,
            (Handler.put db now key (some e) (some v) none).2⟩ := by
        simp [Handler.create, checkValue_some, hp, isLiveValue, htomb]
      rw [hc, hput]
      exact ⟨_, rfl, rfl, _, dbSet_self db key _, rfl, rfl⟩

/-- C5 witness: `create` on the live key fails and changes nothing;
`create` on the empty store and on a tombstone both commit with version
`(now, 1)`. -/
theorem create_live_false_else_commits_witness :
    Handler.create dbLive 5 "k" (some (.vBool true)) = Except.ok ⟨false, dbLive, none⟩
    ∧ (∃ r, Handler.create emptyDB 5 "k" (some (.vBool true)) = Except.ok r ∧ r.ret = true
        ∧ ∃ e2, r.db "k" = some e2 ∧ e2.version = ⟨5, 1⟩ ∧ e2.value = some (.vBool true))
    ∧ (∃ r, Handler.create dbTomb 6 "k" (some (.vBool true)) = Except.ok r ∧ r.ret = true
        ∧ ∃ e2, r.db "k" = some e2 ∧ e2.version = ⟨6, 1⟩ ∧ e2.value = some (.vBool true)) :=
  ⟨(create_live_false_else_commits dbLive 5 "k" (.vBool true)).1 (by decide),
   (create_live_false_else_commits emptyDB 5 "k" (.vBool true)).2 (by decide),
   (create_live_false_else_commits dbTomb 6 "k" (.vBool true)).2 (by decide)⟩

/-- C1: evaluation at the failing input.  Against an envelope whose history
already holds `NUM_PATCHES_TO_KEEP = 20` patches, a successful commit stores
`patches.slice(-NUM_PATCHES_TO_KEEP).concat(patch)` — 21 patches, exceeding
the claimed cap of 20 (the code truncates to the most recent 20, not 19,
before appending). -/
theorem put_stores_twentyone_patches :
    (opDbAt (Handler.setIfVersion dbFull 99 "k" ⟨1, 20⟩ (some (.vNum 2)) none) "k").map
        (fun e => e.patches.length) = some (NUM_PATCHES_TO_KEEP + 1) := by
  decide

/-- C10: for a key holding a tombstone, `getWithVersion` returns the
tombstone's preserved version with no value — not the sentinel `(0, 0)`
(tombstone versions are commit-produced, hence non-sentinel); only a key
with no envelope at all yields version `(0, 0)`. -/
theorem getWithVersion_tombstone (db : DB) (key : String) (e : Envelope)
    (hdb : Handler.getWithMeta db key = some e) (htomb : e.value = none)
    (hver : e.version ≠ ⟨0, 0⟩) :
    Handler.getWithVersion db key = ⟨e.version, none⟩
    ∧ Handler.getWithVersion db key ≠ ⟨⟨0, 0⟩, none⟩
    ∧ ∀ k2, Handler.getWithMeta db k2 = none →
        Handler.getWithVersion db k2 = ⟨⟨0, 0⟩, none⟩ := by
  refine ⟨?_, ?_, ?_⟩
  · simp [Handler.getWithVersion, hdb, htomb]
  · simp only [Handler.getWithVersion, hdb, htomb]
    intro hh
    exact hver (congrArg VersionedMaybeObject.version hh)
  · intro k2 h2
    simp [Handler.getWithVersion, h2]

/-- C10 witness: the tombstone that preserved `(5, 3)` reports exactly that
version, with no value. -/
theorem getWithVersion_tombstone_witness :
    Handler.getWithVersion dbTomb "k" = ⟨⟨5, 3⟩, none⟩
    ∧ Handler.getWithVersion dbTomb "k" ≠ ⟨⟨0, 0⟩, none⟩ :=
  ⟨(getWithVersion_tombstone dbTomb "k" envTomb rfl rfl (by decide)).1,
   (getWithVersion_tombstone dbTomb "k" envTomb rfl rfl (by decide)).2.1⟩

/-- C6 counterexample: a bare top-level `null` is NOT rejected — JS
`typeof null` is `"object"`, so `checkValue` passes it and `create` commits
it — and `setIfVersion` with an `undefined` value skips the check entirely
(the CAS-remove form) instead of raising a type error. -/
theorem checkValue_null_undefined_counterexample :
    opRet (Handler.create emptyDB 5 "k" (some .vNull)) = some true
    ∧ opIsError (Handler.create emptyDB 5 "k" (some .vNull)) = false
    ∧ opIsError (Handler.setIfVersion emptyDB 5 "k" ⟨0, 0⟩ none none) = false := by
  decide

/-- C6 amended: `create` raises a type error synchronously (before any state
change) exactly for values whose JS `typeof` is outside
`{object, boolean, number, string}` — in particular `undefined` — while
every JSON value, including a bare top-level `null`, passes the check; and
`setIfVersion` with an `undefined` value skips the check and never raises a
type error. -/
theorem checkValue_typeof_domain (db : DB) (now : Int) (key : String)
    (expected : Version) (opts : Option Val) :
    Handler.create db now key none =
      Except.error "Non-JSONable value of type undefined at top level"
    ∧ (∀ v : Val, checkValue (some v) = Except.ok ()
        ∧ allowedTypes.contains (typeofJS (some v)) = true)
    ∧ allowedTypes.contains (typeofJS none) = false
    ∧ (∃ r, Handler.setIfVersion db now key expected none opts = Except.ok r) := by
  refine ⟨rfl, ?_, rfl, ?_⟩
  · intro v
    exact ⟨checkValue_some v, by cases v <;> rfl⟩
  · cases hb : versionsMatch (Handler.getWithMeta db key) expected with
    | false => exact ⟨⟨false, db, none⟩, by simp [Handler.setIfVersion, hb]⟩
    | true =>
      exact ⟨⟨true, (Handler.put db now key (Handler.getWithMeta db key) none opts).1,
        (Handler.put db now key (Handler.getWithMeta db key) none opts).2⟩,
        by simp [Handler.setIfVersion, hb]⟩

/-- JS `===` between independently produced values agrees with structural
equality exactly on primitives. -/
theorem jsStrictEq_iff (a b : Val) :
    jsStrictEq a b = true ↔ (a = b ∧ isPrimitive b = true) := by
  cases a <;> cases b <;> simp [jsStrictEq, isPrimitive]

/-- C7 counterexample: the value extracted at the filter path is
structurally equal to the composite operand, yet the `eq` filter evaluates
to false (JS `===` is reference equality on objects) and `ne` to true. -/
theorem match_eq_composite_counterexample :
    getPath pathC7 (docVal docC7) = some operandC7
    ∧ matchF docC7 (DocFilter.eq pathC7 operandC7) = false
    ∧ matchF docC7 (DocFilter.ne pathC7 operandC7) = true := by
  decide

/-- C7 amended: an `eq` filter evaluates to true iff the value extracted at
the filter's path is structurally equal to the operand AND the operand is a
primitive (null, boolean, number, or string); for composite operands
(objects, arrays) `eq` is always false, since `===` compares references and
the freshly parsed document never aliases the query operand; `ne` is the
exact boolean negation of `eq`. -/
theorem match_eq_primitive_only (d : Document) (p : List Seg) (v : Val) :
    (matchF d (DocFilter.eq p v) = true ↔
      (getPath p (docVal d) = some v ∧ isPrimitive v = true))
    ∧ matchF d (DocFilter.ne p v) = !matchF d (DocFilter.eq p v) := by
  constructor
  · show jsStrictEqOpt (getPath p (docVal d)) v = true ↔ _
    cases hg : getPath p (docVal d) with
    | none => simp [jsStrictEqOpt]
    | some w => simp [jsStrictEqOpt, jsStrictEq_iff]
  · show (!jsStrictEqOpt (getPath p (docVal d)) v) = !jsStrictEqOpt (getPath p (docVal d)) v
    rfl

/-- When no subscribed key has a stored patch newer than its floor, the
initial scan is empty. -/
theorem pollScan_nil (db : DB) (kvs : List (String × Version))
    (h : ∀ kv ∈ kvs, ∀ e, Handler.getWithMeta db kv.1 = some e →
      e.patches.filter (fun p => isGreaterVersion p.version kv.2) = []) :
    pollScan db kvs = [] := by
  induction kvs with
  | nil => rfl
  | cons kv rest ih =>
    have hone : pollScanOne db kv = none := by
      cases hd : Handler.getWithMeta db kv.1 with
      | none => simp [pollScanOne, hd]
      | some e =>
        have := h kv (List.mem_cons_self kv rest) e hd
        simp [pollScanOne, hd, this]
    have hrest : pollScan db rest = [] :=
      ih (fun kv2 h2 => h kv2 (List.mem_cons_of_mem kv h2))
    simpa [pollScan, hone] using hrest

/-- When no live event qualifies, the handler never resolves the wait. -/
theorem firstQualifying_none (kvs : List (String × Version))
    (events : List (String × Patch))
    (h : ∀ ev ∈ events, qualifies kvs ev.1 ev.2 = false) :
    firstQualifying kvs events = none := by
  induction events with
  | nil => rfl
  | cons ev rest ih =>
    obtain ⟨k, p⟩ := ev
    have hk := h (k, p) (List.mem_cons_self _ rest)
    simp only [firstQualifying, hk, Bool.false_eq_true, if_false]
    exact ih (fun ev2 h2 => h ev2 (List.mem_cons_of_mem _ h2))

/-- C9: when `poll`'s initial scan finds no stored patch strictly newer than
the caller's `sinceVersion` for any subscribed key and no qualifying live
event arrives within the waiting window, `poll` returns the empty list (the
internal `TimeoutError` is converted, never surfaced), and any other
rejection of the wait is propagated as an error. -/
theorem poll_empty_scan_timeout (db : DB) (kvs : List (String × Version))
    (events : List (String × Patch))
    (hscan : ∀ kv ∈ kvs, ∀ e, Handler.getWithMeta db kv.1 = some e →
      e.patches.filter (fun p => isGreaterVersion p.version kv.2) = [])
    (hlive : ∀ ev ∈ events, qualifies kvs ev.1 ev.2 = false) :
    Handler.poll db kvs events = Except.ok []
    ∧ ∀ name, name ≠ "TimeoutError" →
        pollFinish (pollScan db kvs) (WaitResult.rejected name) = Except.error name := by
  have hs := pollScan_nil db kvs hscan
  have hf := firstQualifying_none kvs events hlive
  constructor
  · simp [Handler.poll, hs, hf, pollFinish]
  · intro name hname
    simp [pollFinish, hs, hname]

/-- C9 witness: one subscribed key whose only stored patch is exactly at the
subscribed version, and one live event that does not exceed it: `poll`
returns the empty list. -/
theorem poll_empty_scan_timeout_witness :
    Handler.poll dbPolled [("a", ⟨1, 1⟩)] [("a", patchA)] = Except.ok [] :=
  (poll_empty_scan_timeout dbPolled [("a", ⟨1, 1⟩)] [("a", patchA)]
    (by
      intro kv hkv e he
      simp only [List.mem_singleton] at hkv
      subst hkv
      have h2 : some envPolled = some e := he
      cases Option.some.inj h2
      decide)
    (by
      intro ev hev
      simp only [List.mem_singleton] at hev
      subst hev
      decide)).1

/-- An undefined (missing) left operand makes the JS relational comparison
false: `ToNumber(undefined)` is `NaN`. -/
theorem jsLt_none_left (y : Option Val) : jsLt none y = false := by
  rcases hy : toPrimitive y with _ | _ | b | n | s <;>
    simp [jsLt, hy, toPrimitive, toNumber]

/-- An undefined (missing) right operand also makes the comparison false. -/
theorem jsLt_none_right (x : Option Val) : jsLt x none = false := by
  rcases hx : toPrimitive x with _ | _ | b | n | s <;>
    simp [jsLt, hx, toPrimitive, toNumber]

/-- A comparator built from an ordering path returns `eq` whenever the left
document's value at the path is missing, in both directions. -/
theorem buildComparator_eq_of_missing (o : Order) (a b : Document)
    (hmiss : getPath o.path (docVal a) = none) :
    buildComparator o a b = .eq ∧ buildComparator o b a = .eq := by
  cases o with
  | mk p dir =>
    cases dir <;>
      simp [buildComparator, ascendCmp, descendCmp, hmiss, jsLt_none_left, jsLt_none_right]

/-- Inserting an element that strictly precedes nothing appends it. -/
theorem insertCmp_append {α : Type} (cmp : α → α → Ordering) (x : α) (l : List α)
    (h : ∀ y ∈ l, cmp x y ≠ .lt) : insertCmp cmp x l = l ++ [x] := by
  induction l with
  | nil => rfl
  | cons y ys ih =>
    have hy : cmp x y ≠ .lt := h y (List.mem_cons_self y ys)
    simp only [insertCmp, if_neg hy, List.cons_append, List.cons.injEq, true_and]
    exact ih (fun z hz => h z (List.mem_cons_of_mem y hz))

/-- Insertion produces a permutation. -/
theorem insertCmp_perm {α : Type} (cmp : α → α → Ordering) (x : α) (l : List α) :
    (insertCmp cmp x l).Perm (x :: l) := by
  induction l with
  | nil => exact List.Perm.refl _
  | cons y ys ih =>
    by_cases h : cmp x y = .lt
    · simp [insertCmp, h]
    · simp only [insertCmp, if_neg h]
      exact (ih.cons y).trans (List.Perm.swap x y ys)

/-- The insertion fold permutes its input (relative to the accumulator). -/
theorem sortAux_perm {α : Type} (cmp : α → α → Ordering) :
    ∀ (l acc : List α),
      (l.foldl (fun acc2 x => insertCmp cmp x acc2) acc).Perm (acc ++ l) := by
  intro l
  induction l with
  | nil => intro acc; simp
  | cons x xs ih =>
    intro acc
    have h1 := ih (insertCmp cmp x acc)
    have h2 : (insertCmp cmp x acc ++ xs).Perm (acc ++ x :: xs) :=
      ((insertCmp_perm cmp x acc).append_right xs).trans List.perm_middle.symm
    simpa [List.foldl_cons] using h1.trans h2

/-- The insertion fold leaves an already non-descending input appended to a
compatible accumulator unchanged (stability on consistent inputs). -/
theorem sortAux_fixed {α : Type} (cmp : α → α → Ordering) :
    ∀ (l acc : List α),
      (∀ x ∈ l, ∀ y ∈ acc, cmp x y ≠ .lt) →
      l.Pairwise (fun a b => cmp b a ≠ .lt) →
      l.foldl (fun acc2 x => insertCmp cmp x acc2) acc = acc ++ l := by
  intro l
  induction l with
  | nil => intro acc _ _; simp
  | cons x xs ih =>
    intro acc hcross hpw
    have hx : insertCmp cmp x acc = acc ++ [x] :=
      insertCmp_append cmp x acc (fun y hy => hcross x (List.mem_cons_self x xs) y hy)
    have hpw2 := List.pairwise_cons.mp hpw
    have hstep : xs.foldl (fun acc2 z => insertCmp cmp z acc2) (acc ++ [x]) =
        (acc ++ [x]) ++ xs := by
      refine ih (acc ++ [x]) ?_ hpw2.2
      intro z hz y hy
      rcases List.mem_append.mp hy with hy2 | hy2
      · exact hcross z (List.mem_cons_of_mem x hz) y hy2
      · rw [List.mem_singleton.mp hy2]
        exact hpw2.1 z hz
    simp only [List.foldl_cons, hx, hstep, List.append_assoc, List.singleton_append]

/-- Sorting a non-descending list returns it unchanged. -/
theorem sortWithCmp_fixed {α : Type} (cmp : α → α → Ordering) (l : List α)
    (h : l.Pairwise (fun a b => cmp b a ≠ .lt)) : sortWithCmp cmp l = l := by
  have := sortAux_fixed cmp l [] (fun x _ y hy => absurd hy (List.not_mem_nil y)) h
  simpa [sortWithCmp] using this

/-- C8 counterexample: under `orderBy [value.age ASC]` a document with no
`age` compares as EQUAL (comparator `0`) to a document with a defined age —
not less-than — and in the sorted output it does not come first: the claim
that a missing value sorts first under ASC fails. -/
theorem orderBy_missing_counterexample :
    buildComparator ordAgeAsc docNoAge (docAge "a" 2) = Ordering.eq
    ∧ buildComparator ordAgeAsc docNoAge (docAge "a" 2) ≠ Ordering.lt
    ∧ findSort [ordAgeAsc] [docAge "a" 2, docNoAge, docAge "b" 1] =
        [docAge "b" 1, docAge "a" 2, docNoAge] := by
  decide

/-- C8 amended: in `find` with an `orderBy` sequence the per-ordering
comparators are combined lexicographically (an earlier ordering dominates;
later ones are consulted only on ties), the sort permutes the scan results
and returns an already non-descending input unchanged (stability on inputs
where the combined comparator is consistent), and a document whose value at
an ordering path is missing/undefined compares as EQUAL to every document
under that ordering — it is not forced first under ASC or last under
DESC. -/
theorem findSort_spec (os : List Order) (o : Order) (l : List Document)
    (a b : Document) (hmiss : getPath o.path (docVal a) = none) :
    buildComparator o a b = .eq
    ∧ buildComparator o b a = .eq
    ∧ (∀ (c : Document → Document → Ordering) (cs : List (Document → Document → Ordering))
        (x y : Document), c x y ≠ .eq → combineCmps (c :: cs) x y = c x y)
    ∧ (∀ (c : Document → Document → Ordering) (cs : List (Document → Document → Ordering))
        (x y : Document), c x y = .eq → combineCmps (c :: cs) x y = combineCmps cs x y)
    ∧ (findSort os l).Perm l
    ∧ (l.Pairwise (fun x y => combineCmps (os.map buildComparator) y x ≠ .lt) →
        findSort os l = l) := by
  obtain ⟨h1, h2⟩ := buildComparator_eq_of_missing o a b hmiss
  refine ⟨h1, h2, ?_, ?_, ?_, ?_⟩
  · intro c cs x y hne
    cases hcxy : c x y with
    | eq => exact absurd hcxy hne
    | lt => simp [combineCmps, hcxy]
    | gt => simp [combineCmps, hcxy]
  · intro c cs x y heq
    simp only [combineCmps, heq]
  · have := sortAux_perm (combineCmps (os.map buildComparator)) l []
    simpa [findSort, sortWithCmp] using this
  · intro hpw
    exact sortWithCmp_fixed _ l hpw

/-- C8 witness: the comparator of `value.age ASC` judges the ageless
document equal to a document aged 2. -/
theorem findSort_spec_witness :
    buildComparator ordAgeAsc docNoAge (docAge "a" 2) = Ordering.eq :=
  (findSort_spec [ordAgeAsc] ordAgeAsc [docAge "a" 2] docNoAge (docAge "a" 2)
    (by decide)).1
